import Mathlib

/-
Verification of the my_jira_cli repository layer against its specification.

The Rust sources embedded here are src/db.rs (repository over a storage
backend), src/models.rs (domain model), src/ui/pages_helpers.rs (column
formatting) and src/ui/prompts.rs (interactive prompts).  Maps of type
HashMap<u32, _> are embedded as association lists List (Nat × _) with the
HashMap operations (get / insert-replacing / remove); a Rust HashMap is
always represented by a list with no duplicate keys, which some theorems
record as an explicit well-formedness hypothesis.  Rust u32 values are
embedded as Nat: id allocation only ever adds 1, and exceeding u32::MAX
would abort the process in a checked build long before any wrap-around,
so overflow is immaterial to the claims treated here.
-/

set_option autoImplicit false

/-- models.rs: the Status enumeration (Open, InProgress, Resolved, Closed). -/
inductive Status where
  | Open
  | InProgress
  | Resolved
  | Closed
deriving DecidableEq, Repr

/-- models.rs: an Epic.  Modelled from the spec: the provided models.rs omits
the `stories` field, but db.rs reads and mutates `epic.stories` as an ordered
sequence of story ids, and spec section 3 gives Epic the field
`stories: ordered sequence of StoryId`. -/
structure Epic where
  name : String
  description : String
  status : Status
  stories : List Nat
deriving DecidableEq, Repr

/-- models.rs: a Story (name, description, status). -/
structure Story where
  name : String
  description : String
  status : Status
deriving DecidableEq, Repr

/-- Epic::new.  Modelled from the spec for the `stories` component: spec
section 3 says an Epic is created with status Open and an empty story list;
the provided models.rs shows Epic::new setting status to Open but omits the
`stories` field entirely. -/
def Epic.new (name : String) (description : String) : Epic :=
  { name := name, description := description, status := Status.Open, stories := [] }

/-- Story::new from models.rs: status starts Open. -/
def Story.new (name : String) (description : String) : Story :=
  { name := name, description := description, status := Status.Open }

/-- DbState.  Modelled from the spec: the struct itself is not in the provided
sources, but db.rs constructs it as
DbState { last_item_id, epics, stories } with epics : HashMap<u32, Epic> and
stories : HashMap<u32, Story>, matching spec section 3. -/
structure DbState where
  last_item_id : Nat
  epics : List (Nat × Epic)
  stories : List (Nat × Story)
deriving DecidableEq, Repr

/-- The empty database state: last_item_id = 0 and both maps empty
(MockDB::new in db.rs). -/
def emptyDb : DbState := { last_item_id := 0, epics := [], stories := [] }

section AList

variable {α : Type}

/-- HashMap::get on the association-list representation: first entry with
the requested key. -/
def getA : List (Nat × α) → Nat → Option α
  | [], _ => none
  | (k, v) :: t, k2 => if k = k2 then some v else getA t k2

/-- HashMap::insert: replace the value stored under the key if present,
otherwise add the binding. -/
def insA : List (Nat × α) → Nat → α → List (Nat × α)
  | [], k, v => [(k, v)]
  | (k2, v2) :: t, k, v => if k2 = k then (k, v) :: t else (k2, v2) :: insA t k v

/-- HashMap::remove: drop the entry stored under the key. -/
def remA : List (Nat × α) → Nat → List (Nat × α)
  | [], _ => []
  | (k2, v2) :: t, k => if k2 = k then t else (k2, v2) :: remA t k

/-- The for-loop in delete_epic: remove every id in the list from the map. -/
def remAll (l : List (Nat × α)) (ids : List Nat) : List (Nat × α) :=
  ids.foldl remA l

/-- The keys of an association list, in order. -/
def keysA (l : List (Nat × α)) : List Nat :=
  l.map Prod.fst

end AList

/-- A DbState that a Rust HashMap pair can actually denote: no duplicate
keys in either map. -/
def WFdb (s : DbState) : Prop :=
  (keysA s.epics).Nodup ∧ (keysA s.stories).Nodup

instance (s : DbState) : Decidable (WFdb s) := by
  unfold WFdb; infer_instance

/-- db.rs create_epic: allocate last_item_id + 1, bump the counter, insert
the epic as given, succeed. -/
def create_epic (epic : Epic) (s : DbState) : Except String (Nat × DbState) :=
  let id := s.last_item_id + 1
  Except.ok (id, { s with last_item_id := id, epics := insA s.epics id epic })

/-- db.rs delete_epic: look the epic up (NotFound error if absent), remove
every story id it lists from the stories map, then remove the epic. -/
def delete_epic (epic_id : Nat) (s : DbState) : Except String (Unit × DbState) :=
  match getA s.epics epic_id with
  | none => Except.error "could not find epic in database!"
  | some e =>
      Except.ok ((), { s with
        stories := remAll s.stories e.stories,
        epics := remA s.epics epic_id })

/-- db.rs update_epic_status: replace the status of the epic in place,
NotFound error if the id is absent. -/
def update_epic_status (epic_id : Nat) (status : Status) (s : DbState) :
    Except String (Unit × DbState) :=
  match getA s.epics epic_id with
  | none => Except.error "could not find epic in database!"
  | some e =>
      Except.ok ((), { s with epics := insA s.epics epic_id { e with status := status } })

/-- db.rs create_story: bump the counter and insert the story into the local
copy of the state first, then look the epic up; on a missing epic the error
aborts before the write, on success push the new id at the end of the epic's
stories vector. -/
def create_story (story : Story) (epic_id : Nat) (s : DbState) :
    Except String (Nat × DbState) :=
  let id := s.last_item_id + 1
  let s1 := { s with last_item_id := id, stories := insA s.stories id story }
  match getA s1.epics epic_id with
  | none => Except.error "could not find epic in database!"
  | some e =>
      Except.ok (id, { s1 with
        epics := insA s1.epics epic_id { e with stories := e.stories ++ [id] } })

/-- db.rs delete_story: NotFound error if the epic is absent; then the
position of story_id in the epic's stories vector is searched for, a distinct
error being produced when it is absent; on success Vec::remove at that
position deletes the first occurrence (List.erase) and the story is removed
from the stories map.  The membership test here is exactly the success
condition of Iterator::position. -/
def delete_story (epic_id : Nat) (story_id : Nat) (s : DbState) :
    Except String (Unit × DbState) :=
  match getA s.epics epic_id with
  | none => Except.error "could not find epic in database!"
  | some e =>
      if story_id ∈ e.stories then
        Except.ok ((), { s with
          epics := insA s.epics epic_id { e with stories := e.stories.erase story_id },
          stories := remA s.stories story_id })
      else Except.error "story id not found in epic stories vector"

/-- db.rs update_story_status: replace the status of the story in place;
the error message for a missing id is the one the source actually uses. -/
def update_story_status (story_id : Nat) (status : Status) (s : DbState) :
    Except String (Unit × DbState) :=
  match getA s.stories story_id with
  | none => Except.error "could not find epic in database!"
  | some st =>
      Except.ok ((), { s with stories := insA s.stories story_id { st with status := status } })

/-- One repository call against a backend whose read and write succeed: the
operation reads the persisted state, and the backend write runs only when
every precondition has already passed, so an error leaves the persisted
state untouched. -/
def runOp {α : Type} (op : DbState → Except String (α × DbState)) (persisted : DbState) :
    Except String α × DbState :=
  match op persisted with
  | Except.error e => (Except.error e, persisted)
  | Except.ok (a, s2) => (Except.ok a, s2)

/-- The repository operations of db.rs, as an alphabet of trace steps. -/
inductive Op where
  | createEpic (epic : Epic)
  | createStory (story : Story) (epic_id : Nat)
  | deleteEpic (epic_id : Nat)
  | deleteStory (epic_id : Nat) (story_id : Nat)
  | updateEpicStatus (epic_id : Nat) (status : Status)
  | updateStoryStatus (story_id : Nat) (status : Status)
deriving DecidableEq, Repr

/-- Run one repository operation against the persisted state: the Except
component is the value returned to the caller (the allocated id for the two
creates), the DbState component is the persisted state afterwards. -/
def opResult (op : Op) (s : DbState) : Except String (Option Nat) × DbState :=
  match op with
  | Op.createEpic e =>
      match runOp (create_epic e) s with
      | (Except.ok id, s2) => (Except.ok (some id), s2)
      | (Except.error m, s2) => (Except.error m, s2)
  | Op.createStory st eid =>
      match runOp (create_story st eid) s with
      | (Except.ok id, s2) => (Except.ok (some id), s2)
      | (Except.error m, s2) => (Except.error m, s2)
  | Op.deleteEpic eid =>
      match runOp (delete_epic eid) s with
      | (Except.ok _, s2) => (Except.ok none, s2)
      | (Except.error m, s2) => (Except.error m, s2)
  | Op.deleteStory eid sid =>
      match runOp (delete_story eid sid) s with
      | (Except.ok _, s2) => (Except.ok none, s2)
      | (Except.error m, s2) => (Except.error m, s2)
  | Op.updateEpicStatus eid st =>
      match runOp (update_epic_status eid st) s with
      | (Except.ok _, s2) => (Except.ok none, s2)
      | (Except.error m, s2) => (Except.error m, s2)
  | Op.updateStoryStatus sid st =>
      match runOp (update_story_status sid st) s with
      | (Except.ok _, s2) => (Except.ok none, s2)
      | (Except.error m, s2) => (Except.error m, s2)

/-- The persisted state after an operation, together with the id it
allocated (none when the operation allocated nothing or failed). -/
def applyOp (s : DbState) (op : Op) : DbState × Option Nat :=
  match opResult op s with
  | (Except.ok a, s2) => (s2, a)
  | (Except.error _, s2) => (s2, none)

/-- Run a sequence of repository operations, collecting the allocated ids
in order. -/
def execFrom (s : DbState) : List Op → DbState × List Nat
  | [] => (s, [])
  | op :: rest =>
      let p := applyOp s op
      let q := execFrom p.1 rest
      (q.1, p.2.toList ++ q.2)

/-- db.rs JiraDatabase::read calls .expect("Read JIRA error") on the backend
result, so a backend failure aborts the process instead of reaching the
caller. -/
inductive ReadOutcome where
  | panics
  | value (s : DbState)
deriving DecidableEq, Repr

/-- JiraDatabase::read as a function of the backend read result. -/
def JiraDatabase.read (backend : Except String DbState) : ReadOutcome :=
  match backend with
  | Except.error _ => ReadOutcome.panics
  | Except.ok s => ReadOutcome.value s

example : runOp (create_epic (Epic.new "a" "b")) emptyDb =
    (Except.ok 1, { last_item_id := 1, epics := [(1, Epic.new "a" "b")], stories := [] }) := rfl

example : (runOp (create_story (Story.new "s" "d") 7) emptyDb).2 = emptyDb := rfl

section AListLemmas

variable {α : Type}

@[simp] theorem keysA_nil : keysA ([] : List (Nat × α)) = [] := rfl

@[simp] theorem keysA_cons (k : Nat) (v : α) (t : List (Nat × α)) :
    keysA ((k, v) :: t) = k :: keysA t := rfl

theorem getA_insA (l : List (Nat × α)) (k : Nat) (v : α) (k2 : Nat) :
    getA (insA l k v) k2 = if k = k2 then some v else getA l k2 := by
  induction l with
  | nil => rfl
  | cons hd t ih =>
      obtain ⟨k3, v3⟩ := hd
      by_cases h3 : k3 = k
      · subst h3
        by_cases h2 : k3 = k2 <;> simp [insA, getA, h2]
      · by_cases h2 : k3 = k2
        · subst h2
          have hk : ¬ k = k3 := fun h => h3 h.symm
          simp [insA, getA, h3, hk]
        · simp [insA, getA, h3, h2, ih]

theorem keysA_insA (l : List (Nat × α)) (k : Nat) (v : α) :
    keysA (insA l k v) = if k ∈ keysA l then keysA l else keysA l ++ [k] := by
  induction l with
  | nil => simp [insA]
  | cons hd t ih =>
      obtain ⟨k3, v3⟩ := hd
      by_cases h3 : k3 = k
      · subst h3; simp [insA]
      · have hk : ¬ k = k3 := fun h => h3 h.symm
        by_cases hm : k ∈ keysA t
        · simp [insA, h3, hk, hm, ih]
        · simp [insA, h3, hk, hm, ih]

theorem nodup_keysA_insA (l : List (Nat × α)) (k : Nat) (v : α)
    (h : (keysA l).Nodup) : (keysA (insA l k v)).Nodup := by
  rw [keysA_insA]
  by_cases hm : k ∈ keysA l
  · simpa [hm] using h
  · simp only [hm, if_false]
    rw [List.nodup_append]
    refine ⟨h, List.nodup_singleton k, ?_⟩
    intro a ha hb
    rw [List.mem_singleton] at hb
    subst hb
    exact hm ha

theorem mem_keysA_iff (l : List (Nat × α)) (k : Nat) :
    k ∈ keysA l ↔ (getA l k).isSome = true := by
  induction l with
  | nil => simp [getA]
  | cons hd t ih =>
      obtain ⟨k3, v3⟩ := hd
      by_cases h3 : k3 = k
      · subst h3; simp [getA]
      · have hk : ¬ k = k3 := fun h => h3 h.symm
        simp [getA, h3, hk, ih]

theorem keysA_remA (l : List (Nat × α)) (k : Nat) :
    keysA (remA l k) = (keysA l).erase k := by
  induction l with
  | nil => simp [remA]
  | cons hd t ih =>
      obtain ⟨k3, v3⟩ := hd
      by_cases h3 : k3 = k
      · subst h3; simp [remA]
      · simp [remA, h3, ih, List.erase_cons, fun h : k3 = k => h3 h]

theorem nodup_keysA_remA (l : List (Nat × α)) (k : Nat)
    (h : (keysA l).Nodup) : (keysA (remA l k)).Nodup := by
  rw [keysA_remA]; exact h.erase k

theorem mem_keysA_remA (l : List (Nat × α)) (k : Nat) (k2 : Nat)
    (h : k2 ∈ keysA (remA l k)) : k2 ∈ keysA l := by
  rw [keysA_remA] at h
  exact List.mem_of_mem_erase h

theorem getA_remA (l : List (Nat × α)) (k : Nat) (k2 : Nat)
    (h : (keysA l).Nodup) :
    getA (remA l k) k2 = if k = k2 then none else getA l k2 := by
  induction l with
  | nil => simp [remA, getA]
  | cons hd t ih =>
      obtain ⟨k3, v3⟩ := hd
      have hnd : (keysA t).Nodup := (List.nodup_cons.mp (by simpa using h)).2
      have hnm : k3 ∉ keysA t := (List.nodup_cons.mp (by simpa using h)).1
      by_cases h3 : k3 = k
      · subst h3
        by_cases h2 : k3 = k2
        · subst h2
          have hg : getA t k3 = none := by
            cases hgx : getA t k3 with
            | none => rfl
            | some v2 => exact absurd ((mem_keysA_iff t k3).mpr (by simp [hgx])) hnm
          simp [remA, hg]
        · simp [remA, getA, h2]
      · by_cases h2 : k3 = k2
        · subst h2
          have hk : ¬ k = k3 := fun h => h3 h.symm
          simp [remA, getA, h3, hk]
        · simp [remA, getA, h3, h2, ih hnd]

theorem remAll_nil (l : List (Nat × α)) : remAll l [] = l := rfl

theorem remAll_cons (l : List (Nat × α)) (i : Nat) (ids : List Nat) :
    remAll l (i :: ids) = remAll (remA l i) ids := rfl

theorem nodup_keysA_remAll (l : List (Nat × α)) (ids : List Nat)
    (h : (keysA l).Nodup) : (keysA (remAll l ids)).Nodup := by
  induction ids generalizing l with
  | nil => simpa [remAll_nil] using h
  | cons i t ih => rw [remAll_cons]; exact ih _ (nodup_keysA_remA _ _ h)

theorem mem_keysA_remAll (l : List (Nat × α)) (ids : List Nat) (k : Nat)
    (h : k ∈ keysA (remAll l ids)) : k ∈ keysA l := by
  induction ids generalizing l with
  | nil => simpa [remAll_nil] using h
  | cons i t ih =>
      rw [remAll_cons] at h
      exact mem_keysA_remA _ _ _ (ih _ h)

theorem getA_remAll (l : List (Nat × α)) (ids : List Nat) (k : Nat)
    (h : (keysA l).Nodup) :
    getA (remAll l ids) k = if k ∈ ids then none else getA l k := by
  induction ids generalizing l with
  | nil => simp [remAll_nil]
  | cons i t ih =>
      rw [remAll_cons, ih _ (nodup_keysA_remA _ _ h)]
      by_cases hm : k ∈ t
      · simp [hm]
      · by_cases hi : i = k
        · subst hi; simp [hm, getA_remA _ _ _ h]
        · have hik : ¬ k = i := fun hx => hi hx.symm
          simp [hm, hi, hik, getA_remA _ _ _ h]

end AListLemmas

/-- A state holding one epic (id 1) with one story (id 2), as produced by
createEpic followed by createStory. -/
def sTwo : DbState :=
  { last_item_id := 2,
    epics := [(1, { Epic.new "e" "d" with stories := [2] })],
    stories := [(2, Story.new "s" "d")] }

/-- C1: create_story fails with the NotFound error and leaves the persisted
state unchanged when the epic id is absent (the backend write is never
reached, even though the in-memory copy was already mutated); when the epic
is present it allocates id = last_item_id + 1, sets last_item_id to it,
inserts the story under that id, appends the id at the end of that epic's
stories sequence, and returns the id. -/
theorem create_story_correct (s : DbState) (story : Story) (epic_id : Nat) :
    (getA s.epics epic_id = none →
      runOp (create_story story epic_id) s =
        (Except.error "could not find epic in database!", s))
    ∧ (∀ e, getA s.epics epic_id = some e →
        ∃ s2, runOp (create_story story epic_id) s = (Except.ok (s.last_item_id + 1), s2)
          ∧ s2.last_item_id = s.last_item_id + 1
          ∧ getA s2.stories (s.last_item_id + 1) = some story
          ∧ getA s2.epics epic_id = some { e with stories := e.stories ++ [s.last_item_id + 1] }
          ∧ (∀ k, k ≠ epic_id → getA s2.epics k = getA s.epics k)
          ∧ (∀ k, k ≠ s.last_item_id + 1 → getA s2.stories k = getA s.stories k)) := by
  constructor
  · intro h
    simp [runOp, create_story, h]
  · intro e he
    refine ⟨{ last_item_id := s.last_item_id + 1,
              epics := insA s.epics epic_id { e with stories := e.stories ++ [s.last_item_id + 1] },
              stories := insA s.stories (s.last_item_id + 1) story }, ?_, rfl, ?_, ?_, ?_, ?_⟩
    · simp [runOp, create_story, he]
    · simp [getA_insA]
    · simp [getA_insA]
    · intro k hk
      rw [getA_insA, if_neg (fun h => hk h.symm)]
    · intro k hk
      rw [getA_insA, if_neg (fun h => hk h.symm)]

/-- C1 witness: both branches of create_story_correct at concrete inputs. -/
theorem create_story_correct_witness :
    (runOp (create_story (Story.new "s" "d") 9) emptyDb =
      (Except.error "could not find epic in database!", emptyDb))
    ∧ (∃ s2, runOp (create_story (Story.new "s2" "d2") 1) sTwo = (Except.ok 3, s2)
        ∧ s2.last_item_id = 3
        ∧ getA s2.stories 3 = some (Story.new "s2" "d2")
        ∧ getA s2.epics 1 = some { Epic.new "e" "d" with stories := [2, 3] }
        ∧ (∀ k, k ≠ 1 → getA s2.epics k = getA sTwo.epics k)
        ∧ (∀ k, k ≠ 3 → getA s2.stories k = getA sTwo.stories k)) :=
  ⟨(create_story_correct emptyDb (Story.new "s" "d") 9).1 rfl,
   (create_story_correct sTwo (Story.new "s2" "d2") 1).2
     { Epic.new "e" "d" with stories := [2] } rfl⟩

/-- C2: delete_epic fails with NotFound (state unchanged) when the epic id is
absent; otherwise it removes exactly the story ids listed in that epic's
stories sequence from the stories map, removes the epic itself, and leaves
every other epic, every story not listed in that epic, and last_item_id
unchanged. -/
theorem delete_epic_correct (s : DbState) (epic_id : Nat) (hw : WFdb s) :
    (getA s.epics epic_id = none →
      runOp (delete_epic epic_id) s = (Except.error "could not find epic in database!", s))
    ∧ (∀ e, getA s.epics epic_id = some e →
        ∃ s2, runOp (delete_epic epic_id) s = (Except.ok (), s2)
          ∧ s2.last_item_id = s.last_item_id
          ∧ getA s2.epics epic_id = none
          ∧ (∀ k, k ≠ epic_id → getA s2.epics k = getA s.epics k)
          ∧ (∀ k, getA s2.stories k = if k ∈ e.stories then none else getA s.stories k)) := by
  constructor
  · intro h
    simp [runOp, delete_epic, h]
  · intro e he
    refine ⟨{ last_item_id := s.last_item_id,
              epics := remA s.epics epic_id,
              stories := remAll s.stories e.stories }, ?_, rfl, ?_, ?_, ?_⟩
    · simp [runOp, delete_epic, he]
    · rw [getA_remA _ _ _ hw.1, if_pos rfl]
    · intro k hk
      rw [getA_remA _ _ _ hw.1, if_neg (fun h => hk h.symm)]
    · intro k
      rw [getA_remAll _ _ _ hw.2]

/-- C2 witness: both branches of delete_epic_correct at concrete inputs. -/
theorem delete_epic_correct_witness :
    (runOp (delete_epic 9) sTwo = (Except.error "could not find epic in database!", sTwo))
    ∧ (∃ s2, runOp (delete_epic 1) sTwo = (Except.ok (), s2)
        ∧ s2.last_item_id = sTwo.last_item_id
        ∧ getA s2.epics 1 = none
        ∧ (∀ k, k ≠ 1 → getA s2.epics k = getA sTwo.epics k)
        ∧ (∀ k, getA s2.stories k = if k ∈ [2] then none else getA sTwo.stories k)) :=
  ⟨(delete_epic_correct sTwo 9 (by decide)).1 rfl,
   (delete_epic_correct sTwo 1 (by decide)).2 { Epic.new "e" "d" with stories := [2] } rfl⟩

/-- C4: delete_story fails with the NotFound error when the epic id is absent
and with the distinct not-linked error when the story id is not in that
epic's stories sequence (regardless of whether it exists in the stories map
under another epic); both failures leave the persisted state unchanged.  On
success it removes the story id from the epic's stories sequence and removes
the key from the stories map, leaving last_item_id and other stories
untouched. -/
theorem delete_story_correct (s : DbState) (epic_id : Nat) (story_id : Nat) (hw : WFdb s) :
    (getA s.epics epic_id = none →
      runOp (delete_story epic_id story_id) s =
        (Except.error "could not find epic in database!", s))
    ∧ (∀ e, getA s.epics epic_id = some e → story_id ∉ e.stories →
        runOp (delete_story epic_id story_id) s =
          (Except.error "story id not found in epic stories vector", s))
    ∧ (∀ e, getA s.epics epic_id = some e → story_id ∈ e.stories →
        ∃ s2, runOp (delete_story epic_id story_id) s = (Except.ok (), s2)
          ∧ s2.last_item_id = s.last_item_id
          ∧ getA s2.epics epic_id = some { e with stories := e.stories.erase story_id }
          ∧ (e.stories.Nodup → story_id ∉ (e.stories.erase story_id))
          ∧ getA s2.stories story_id = none
          ∧ (∀ k, k ≠ story_id → getA s2.stories k = getA s.stories k)) := by
  refine ⟨?_, ?_, ?_⟩
  · intro h
    simp [runOp, delete_story, h]
  · intro e he hm
    simp [runOp, delete_story, he, hm]
  · intro e he hm
    refine ⟨{ last_item_id := s.last_item_id,
              epics := insA s.epics epic_id { e with stories := e.stories.erase story_id },
              stories := remA s.stories story_id }, ?_, rfl, ?_, ?_, ?_, ?_⟩
    · simp [runOp, delete_story, he, hm]
    · simp [getA_insA]
    · intro hnd
      exact hnd.not_mem_erase
    · rw [getA_remA _ _ _ hw.2, if_pos rfl]
    · intro k hk
      rw [getA_remA _ _ _ hw.2, if_neg (fun h => hk h.symm)]

/-- A state like sTwo but with a second epic (id 3) that has no stories:
story 2 exists in the stories map yet is not linked to epic 3. -/
def sTwoPlus : DbState :=
  { last_item_id := 3,
    epics := [(1, { Epic.new "e" "d" with stories := [2] }), (3, Epic.new "x" "y")],
    stories := [(2, Story.new "s" "d")] }

/-- C4 witness: all three branches of delete_story_correct at concrete
inputs; in the not-linked branch the story id 2 does exist in the stories
map, just under an epic other than epic 3. -/
theorem delete_story_correct_witness :
    (runOp (delete_story 9 2) sTwo =
      (Except.error "could not find epic in database!", sTwo))
    ∧ (runOp (delete_story 3 2) sTwoPlus =
        (Except.error "story id not found in epic stories vector", sTwoPlus))
    ∧ (∃ s2, runOp (delete_story 1 2) sTwo = (Except.ok (), s2)
        ∧ s2.last_item_id = sTwo.last_item_id
        ∧ getA s2.epics 1 = some { Epic.new "e" "d" with stories := [] }
        ∧ ([2].Nodup → 2 ∉ ([2].erase 2))
        ∧ getA s2.stories 2 = none
        ∧ (∀ k, k ≠ 2 → getA s2.stories k = getA sTwo.stories k)) :=
  ⟨(delete_story_correct sTwo 9 2 (by decide)).1 rfl,
   (delete_story_correct sTwoPlus 3 2 (by decide)).2.1 (Epic.new "x" "y") rfl (by decide),
   (delete_story_correct sTwo 1 2 (by decide)).2.2
     { Epic.new "e" "d" with stories := [2] } rfl (by decide)⟩

/-- An epic value that already carries a non-empty stories sequence. -/
def epicPreloaded : Epic :=
  { name := "n", description := "d", status := Status.Open, stories := [7] }

/-- C5 counterexample: create_epic inserts the epic exactly as passed, so an
input epic whose stories sequence is non-empty is stored with that non-empty
sequence, not with an empty one as the claim states for every input epic. -/
theorem create_epic_keeps_stories_cx :
    getA (runOp (create_epic epicPreloaded) emptyDb).2.epics 1 = some epicPreloaded
    ∧ epicPreloaded.stories = [7]
    ∧ epicPreloaded.stories ≠ [] := by
  refine ⟨rfl, rfl, by decide⟩

/-- C5 amended: Epic::new produces status Open and an empty stories
sequence; create_epic allocates id = last_item_id + 1, sets last_item_id to
it, inserts the input epic unchanged under that id (hence with an empty
stories sequence whenever the epic came from Epic::new), leaves the stories
map and all other epics untouched, returns the id, and always succeeds when
the backend read and write succeed. -/
theorem create_epic_correct :
    (∀ name description,
      (Epic.new name description).status = Status.Open
      ∧ (Epic.new name description).stories = [])
    ∧ (∀ (s : DbState) (epic : Epic),
        ∃ s2, runOp (create_epic epic) s = (Except.ok (s.last_item_id + 1), s2)
          ∧ s2.last_item_id = s.last_item_id + 1
          ∧ getA s2.epics (s.last_item_id + 1) = some epic
          ∧ s2.stories = s.stories
          ∧ (∀ k, k ≠ s.last_item_id + 1 → getA s2.epics k = getA s.epics k)) := by
  constructor
  · intro name description
    exact ⟨rfl, rfl⟩
  · intro s epic
    refine ⟨{ last_item_id := s.last_item_id + 1,
              epics := insA s.epics (s.last_item_id + 1) epic,
              stories := s.stories }, rfl, rfl, ?_, rfl, ?_⟩
    · simp [getA_insA]
    · intro k hk
      rw [getA_insA, if_neg (fun h => hk h.symm)]

/-- C5 witness: create_epic_correct applied at a fresh epic on the empty
state: id 1 is allocated and the epic is stored under it. -/
theorem create_epic_correct_witness :
    (Epic.new "a" "b").status = Status.Open
    ∧ (∃ s2, runOp (create_epic (Epic.new "a" "b")) emptyDb = (Except.ok 1, s2)
        ∧ s2.last_item_id = 1
        ∧ getA s2.epics 1 = some (Epic.new "a" "b")
        ∧ s2.stories = emptyDb.stories
        ∧ (∀ k, k ≠ 1 → getA s2.epics k = getA emptyDb.epics k)) :=
  ⟨(create_epic_correct.1 "a" "b").1, create_epic_correct.2 emptyDb (Epic.new "a" "b")⟩

/-- C10: neither create checks for a key collision: on a state where
last_item_id + 1 is already a key (only possible when the invariant tying
last_item_id to the maximum allocated id has been broken externally), the
create succeeds and silently replaces the entity stored under that key. -/
theorem create_overwrites_on_collision (s : DbState) (eOld eNew : Epic)
    (stOld stNew : Story) :
    (getA s.epics (s.last_item_id + 1) = some eOld →
      ∃ s2, runOp (create_epic eNew) s = (Except.ok (s.last_item_id + 1), s2)
        ∧ getA s2.epics (s.last_item_id + 1) = some eNew)
    ∧ (∀ e epic_id, getA s.epics epic_id = some e →
        getA s.stories (s.last_item_id + 1) = some stOld →
        ∃ s2, runOp (create_story stNew epic_id) s = (Except.ok (s.last_item_id + 1), s2)
          ∧ getA s2.stories (s.last_item_id + 1) = some stNew) := by
  constructor
  · intro _
    refine ⟨_, rfl, ?_⟩
    simp [getA_insA]
  · intro e epic_id he _
    refine ⟨{ last_item_id := s.last_item_id + 1,
              epics := insA s.epics epic_id { e with stories := e.stories ++ [s.last_item_id + 1] },
              stories := insA s.stories (s.last_item_id + 1) stNew }, ?_, ?_⟩
    · simp [runOp, create_story, he]
    · simp [getA_insA]

/-- A corrupted state in which last_item_id + 1 = 1 already exists as a key
of both maps (reachable only by editing the JSON file by hand). -/
def sClash : DbState :=
  { last_item_id := 0,
    epics := [(1, Epic.new "e" "d")],
    stories := [(1, Story.new "s" "d")] }

/-- C10 witness: on sClash, create_epic replaces the epic stored under key 1
and create_story replaces the story stored under key 1. -/
theorem create_overwrites_on_collision_witness :
    (∃ s2, runOp (create_epic epicPreloaded) sClash = (Except.ok 1, s2)
      ∧ getA s2.epics 1 = some epicPreloaded)
    ∧ (∃ s2, runOp (create_story (Story.new "t" "u") 1) sClash = (Except.ok 1, s2)
      ∧ getA s2.stories 1 = some (Story.new "t" "u")) :=
  ⟨(create_overwrites_on_collision sClash (Epic.new "e" "d") epicPreloaded
      (Story.new "s" "d") (Story.new "t" "u")).1 rfl,
   (create_overwrites_on_collision sClash (Epic.new "e" "d") epicPreloaded
      (Story.new "s" "d") (Story.new "t" "u")).2 (Epic.new "e" "d") 1 rfl rfl⟩

/-- Every story id referenced in any epic's stories sequence is a key of the
stories map (spec section 3 invariant). -/
def refsClosed (s : DbState) : Prop :=
  ∀ k e, getA s.epics k = some e → ∀ sid ∈ e.stories, (getA s.stories sid).isSome = true

/-- Each story id is referenced by at most one epic. -/
def refsUnique (s : DbState) : Prop :=
  ∀ k1 e1 k2 e2 sid, getA s.epics k1 = some e1 → getA s.epics k2 = some e2 →
    sid ∈ e1.stories → sid ∈ e2.stories → k1 = k2

/-- No epic lists the same story id twice. -/
def storiesNodup (s : DbState) : Prop :=
  ∀ k e, getA s.epics k = some e → e.stories.Nodup

/-- Every key of either map is bounded by the id counter. -/
def keysLe (s : DbState) : Prop :=
  (∀ k ∈ keysA s.epics, k ≤ s.last_item_id)
  ∧ (∀ k ∈ keysA s.stories, k ≤ s.last_item_id)

/-- The inductive invariant of reachable states. -/
def InvDb (s : DbState) : Prop :=
  WFdb s ∧ keysLe s ∧ refsClosed s ∧ refsUnique s ∧ storiesNodup s

theorem inv_emptyDb : InvDb emptyDb := by
  refine ⟨⟨by simp [emptyDb], by simp [emptyDb]⟩, ⟨?_, ?_⟩, ?_, ?_, ?_⟩ <;>
    intro k <;> simp [emptyDb, getA] at *

/-- A createEpic step respects the invariant only when the inserted epic has
no stories; the other operations are unrestricted. -/
def goodOp : Op → Bool
  | Op.createEpic e => e.stories.isEmpty
  | _ => true

def goodOps (ops : List Op) : Bool := ops.all goodOp

theorem mem_keysA_insA {α : Type} (l : List (Nat × α)) (k : Nat) (v : α) (k2 : Nat)
    (h : k2 ∈ keysA (insA l k v)) : k2 ∈ keysA l ∨ k2 = k := by
  rw [keysA_insA] at h
  by_cases hm : k ∈ keysA l
  · rw [if_pos hm] at h; exact Or.inl h
  · rw [if_neg hm] at h
    rcases List.mem_append.mp h with h2 | h2
    · exact Or.inl h2
    · exact Or.inr (List.mem_singleton.mp h2)

theorem keysA_insA_of_mem {α : Type} (l : List (Nat × α)) (k : Nat) (v : α)
    (h : k ∈ keysA l) : keysA (insA l k v) = keysA l := by
  rw [keysA_insA, if_pos h]

/-- In an invariant state, every referenced story id is at most the
counter. -/
theorem refs_le (s : DbState) (hi : InvDb s) (k : Nat) (e : Epic) (sid : Nat)
    (he : getA s.epics k = some e) (hm : sid ∈ e.stories) :
    sid ≤ s.last_item_id := by
  have hs : (getA s.stories sid).isSome = true := hi.2.2.1 k e he sid hm
  exact hi.2.1.2 sid ((mem_keysA_iff _ _).mpr hs)

/-- In an invariant state, every epic key is at most the counter. -/
theorem epic_key_le (s : DbState) (hi : InvDb s) (k : Nat) (e : Epic)
    (he : getA s.epics k = some e) : k ≤ s.last_item_id :=
  hi.2.1.1 k ((mem_keysA_iff _ _).mpr (by simp [he]))

theorem inv_step_createEpic (s : DbState) (e : Epic) (he : e.stories = [])
    (hi : InvDb s) :
    InvDb { last_item_id := s.last_item_id + 1,
            epics := insA s.epics (s.last_item_id + 1) e,
            stories := s.stories } := by
  obtain ⟨⟨hwe, hws⟩, ⟨hle, hls⟩, hc, hu, hn⟩ := hi
  refine ⟨⟨nodup_keysA_insA _ _ _ hwe, hws⟩, ⟨?_, ?_⟩, ?_, ?_, ?_⟩
  · intro k hk
    rcases mem_keysA_insA _ _ _ _ hk with h | h
    · exact Nat.le_succ_of_le (hle k h)
    · subst h; exact le_rfl
  · intro k hk
    exact Nat.le_succ_of_le (hls k hk)
  · intro k e2 hk sid hsid
    rw [getA_insA] at hk
    by_cases h2 : s.last_item_id + 1 = k
    · rw [if_pos h2] at hk
      cases hk
      rw [he] at hsid
      cases hsid
    · rw [if_neg h2] at hk
      exact hc k e2 hk sid hsid
  · intro k1 e1 k2 e2 sid h1 h2 hm1 hm2
    rw [getA_insA] at h1 h2
    by_cases hb1 : s.last_item_id + 1 = k1
    · rw [if_pos hb1] at h1
      cases h1
      rw [he] at hm1
      cases hm1
    · rw [if_neg hb1] at h1
      by_cases hb2 : s.last_item_id + 1 = k2
      · rw [if_pos hb2] at h2
        cases h2
        rw [he] at hm2
        cases hm2
      · rw [if_neg hb2] at h2
        exact hu k1 e1 k2 e2 sid h1 h2 hm1 hm2
  · intro k e2 hk
    rw [getA_insA] at hk
    by_cases h2 : s.last_item_id + 1 = k
    · rw [if_pos h2] at hk
      cases hk
      rw [he]
      exact List.nodup_nil
    · rw [if_neg h2] at hk
      exact hn k e2 hk

theorem inv_step_createStory (s : DbState) (st : Story) (epic_id : Nat) (e : Epic)
    (he : getA s.epics epic_id = some e) (hi : InvDb s) :
    InvDb { last_item_id := s.last_item_id + 1,
            epics := insA s.epics epic_id
              { e with stories := e.stories ++ [s.last_item_id + 1] },
            stories := insA s.stories (s.last_item_id + 1) st } := by
  obtain ⟨⟨hwe, hws⟩, ⟨hle, hls⟩, hc, hu, hn⟩ := hi
  have hiv : InvDb s := ⟨⟨hwe, hws⟩, ⟨hle, hls⟩, hc, hu, hn⟩
  have hmem : epic_id ∈ keysA s.epics := (mem_keysA_iff _ _).mpr (by simp [he])
  refine ⟨⟨nodup_keysA_insA _ _ _ hwe, nodup_keysA_insA _ _ _ hws⟩, ⟨?_, ?_⟩, ?_, ?_, ?_⟩
  · intro k hk
    rw [keysA_insA_of_mem _ _ _ hmem] at hk
    exact Nat.le_succ_of_le (hle k hk)
  · intro k hk
    rcases mem_keysA_insA _ _ _ _ hk with h | h
    · exact Nat.le_succ_of_le (hls k h)
    · subst h; exact le_rfl
  · intro k e2 hk sid hsid
    rw [getA_insA]
    by_cases hs2 : s.last_item_id + 1 = sid
    · rw [if_pos hs2]; rfl
    · rw [if_neg hs2]
      rw [getA_insA] at hk
      by_cases h2 : epic_id = k
      · rw [if_pos h2] at hk
        cases hk
        rcases List.mem_append.mp hsid with h3 | h3
        · exact hc epic_id e he sid h3
        · exact absurd (List.mem_singleton.mp h3).symm hs2
      · rw [if_neg h2] at hk
        exact hc k e2 hk sid hsid
  · intro k1 e1 k2 e2 sid h1 h2 hm1 hm2
    rw [getA_insA] at h1 h2
    by_cases hb1 : epic_id = k1
    · rw [if_pos hb1] at h1
      by_cases hb2 : epic_id = k2
      · omega
      · rw [if_neg hb2] at h2
        cases h1
        rcases List.mem_append.mp hm1 with h3 | h3
        · exact hu k1 e k2 e2 sid (hb1 ▸ he) h2 h3 hm2
        · have hsid : sid = s.last_item_id + 1 := List.mem_singleton.mp h3
          have : sid ≤ s.last_item_id := refs_le s hiv k2 e2 sid h2 hm2
          omega
    · rw [if_neg hb1] at h1
      by_cases hb2 : epic_id = k2
      · rw [if_pos hb2] at h2
        cases h2
        rcases List.mem_append.mp hm2 with h3 | h3
        · exact hu k1 e1 k2 e sid h1 (hb2 ▸ he) hm1 h3
        · have hsid : sid = s.last_item_id + 1 := List.mem_singleton.mp h3
          have : sid ≤ s.last_item_id := refs_le s hiv k1 e1 sid h1 hm1
          omega
      · rw [if_neg hb2] at h2
        exact hu k1 e1 k2 e2 sid h1 h2 hm1 hm2
  · intro k e2 hk
    rw [getA_insA] at hk
    by_cases h2 : epic_id = k
    · rw [if_pos h2] at hk
      cases hk
      have hnd : e.stories.Nodup := hn epic_id e he
      have hnm : s.last_item_id + 1 ∉ e.stories := by
        intro hx
        have : s.last_item_id + 1 ≤ s.last_item_id := refs_le s hiv epic_id e (s.last_item_id + 1) he hx
        omega
      simp [List.nodup_append, hnd, hnm]
    · rw [if_neg h2] at hk
      exact hn k e2 hk

theorem inv_step_deleteEpic (s : DbState) (epic_id : Nat) (e : Epic)
    (he : getA s.epics epic_id = some e) (hi : InvDb s) :
    InvDb { last_item_id := s.last_item_id,
            epics := remA s.epics epic_id,
            stories := remAll s.stories e.stories } := by
  obtain ⟨⟨hwe, hws⟩, ⟨hle, hls⟩, hc, hu, hn⟩ := hi
  refine ⟨⟨nodup_keysA_remA _ _ hwe, nodup_keysA_remAll _ _ hws⟩, ⟨?_, ?_⟩, ?_, ?_, ?_⟩
  · intro k hk
    exact hle k (mem_keysA_remA _ _ _ hk)
  · intro k hk
    exact hls k (mem_keysA_remAll _ _ _ hk)
  · intro k e2 hk sid hsid
    rw [getA_remA _ _ _ hwe] at hk
    by_cases h2 : epic_id = k
    · rw [if_pos h2] at hk; cases hk
    · rw [if_neg h2] at hk
      rw [getA_remAll _ _ _ hws]
      have hnm : sid ∉ e.stories := by
        intro hx
        exact h2 (hu epic_id e k e2 sid he hk hx hsid)
      rw [if_neg hnm]
      exact hc k e2 hk sid hsid
  · intro k1 e1 k2 e2 sid h1 h2 hm1 hm2
    rw [getA_remA _ _ _ hwe] at h1 h2
    by_cases hb1 : epic_id = k1
    · rw [if_pos hb1] at h1; cases h1
    · rw [if_neg hb1] at h1
      by_cases hb2 : epic_id = k2
      · rw [if_pos hb2] at h2; cases h2
      · rw [if_neg hb2] at h2
        exact hu k1 e1 k2 e2 sid h1 h2 hm1 hm2
  · intro k e2 hk
    rw [getA_remA _ _ _ hwe] at hk
    by_cases h2 : epic_id = k
    · rw [if_pos h2] at hk; cases hk
    · rw [if_neg h2] at hk
      exact hn k e2 hk

theorem inv_step_deleteStory (s : DbState) (epic_id : Nat) (story_id : Nat) (e : Epic)
    (he : getA s.epics epic_id = some e) (hm : story_id ∈ e.stories) (hi : InvDb s) :
    InvDb { last_item_id := s.last_item_id,
            epics := insA s.epics epic_id { e with stories := e.stories.erase story_id },
            stories := remA s.stories story_id } := by
  obtain ⟨⟨hwe, hws⟩, ⟨hle, hls⟩, hc, hu, hn⟩ := hi
  have hmem : epic_id ∈ keysA s.epics := (mem_keysA_iff _ _).mpr (by simp [he])
  refine ⟨⟨nodup_keysA_insA _ _ _ hwe, nodup_keysA_remA _ _ hws⟩, ⟨?_, ?_⟩, ?_, ?_, ?_⟩
  · intro k hk
    rw [keysA_insA_of_mem _ _ _ hmem] at hk
    exact hle k hk
  · intro k hk
    exact hls k (mem_keysA_remA _ _ _ hk)
  · intro k e2 hk sid hsid
    rw [getA_remA _ _ _ hws]
    rw [getA_insA] at hk
    by_cases h2 : epic_id = k
    · rw [if_pos h2] at hk
      cases hk
      have hnd : e.stories.Nodup := hn epic_id e he
      have hsid2 : sid ∈ e.stories := List.mem_of_mem_erase hsid
      have hne : ¬ story_id = sid := by
        intro hx
        subst hx
        exact hnd.not_mem_erase hsid
      rw [if_neg hne]
      exact hc epic_id e he sid hsid2
    · rw [if_neg h2] at hk
      have hne : ¬ story_id = sid := by
        intro hx
        subst hx
        exact h2 (hu epic_id e k e2 story_id he hk hm hsid)
      rw [if_neg hne]
      exact hc k e2 hk sid hsid
  · intro k1 e1 k2 e2 sid h1 h2 hm1 hm2
    rw [getA_insA] at h1 h2
    by_cases hb1 : epic_id = k1
    · by_cases hb2 : epic_id = k2
      · omega
      · rw [if_pos hb1] at h1
        rw [if_neg hb2] at h2
        cases h1
        exact hu k1 e k2 e2 sid (hb1 ▸ he) h2 (List.mem_of_mem_erase hm1) hm2
    · rw [if_neg hb1] at h1
      by_cases hb2 : epic_id = k2
      · rw [if_pos hb2] at h2
        cases h2
        exact hu k1 e1 k2 e sid h1 (hb2 ▸ he) hm1 (List.mem_of_mem_erase hm2)
      · rw [if_neg hb2] at h2
        exact hu k1 e1 k2 e2 sid h1 h2 hm1 hm2
  · intro k e2 hk
    rw [getA_insA] at hk
    by_cases h2 : epic_id = k
    · rw [if_pos h2] at hk
      cases hk
      exact (hn epic_id e he).erase story_id
    · rw [if_neg h2] at hk
      exact hn k e2 hk

theorem inv_step_updateEpic (s : DbState) (epic_id : Nat) (status : Status) (e : Epic)
    (he : getA s.epics epic_id = some e) (hi : InvDb s) :
    InvDb { s with epics := insA s.epics epic_id { e with status := status } } := by
  obtain ⟨⟨hwe, hws⟩, ⟨hle, hls⟩, hc, hu, hn⟩ := hi
  have hmem : epic_id ∈ keysA s.epics := (mem_keysA_iff _ _).mpr (by simp [he])
  refine ⟨⟨nodup_keysA_insA _ _ _ hwe, hws⟩, ⟨?_, ?_⟩, ?_, ?_, ?_⟩
  · intro k hk
    rw [keysA_insA_of_mem _ _ _ hmem] at hk
    exact hle k hk
  · intro k hk
    exact hls k hk
  · intro k e2 hk sid hsid
    rw [getA_insA] at hk
    by_cases h2 : epic_id = k
    · rw [if_pos h2] at hk
      cases hk
      exact hc epic_id e he sid hsid
    · rw [if_neg h2] at hk
      exact hc k e2 hk sid hsid
  · intro k1 e1 k2 e2 sid h1 h2 hm1 hm2
    rw [getA_insA] at h1 h2
    by_cases hb1 : epic_id = k1
    · by_cases hb2 : epic_id = k2
      · omega
      · rw [if_pos hb1] at h1
        rw [if_neg hb2] at h2
        cases h1
        exact hu k1 e k2 e2 sid (hb1 ▸ he) h2 hm1 hm2
    · rw [if_neg hb1] at h1
      by_cases hb2 : epic_id = k2
      · rw [if_pos hb2] at h2
        cases h2
        exact hu k1 e1 k2 e sid h1 (hb2 ▸ he) hm1 hm2
      · rw [if_neg hb2] at h2
        exact hu k1 e1 k2 e2 sid h1 h2 hm1 hm2
  · intro k e2 hk
    rw [getA_insA] at hk
    by_cases h2 : epic_id = k
    · rw [if_pos h2] at hk
      cases hk
      exact hn epic_id e he
    · rw [if_neg h2] at hk
      exact hn k e2 hk

theorem inv_step_updateStory (s : DbState) (story_id : Nat) (status : Status) (st : Story)
    (he : getA s.stories story_id = some st) (hi : InvDb s) :
    InvDb { s with stories := insA s.stories story_id { st with status := status } } := by
  obtain ⟨⟨hwe, hws⟩, ⟨hle, hls⟩, hc, hu, hn⟩ := hi
  have hmem : story_id ∈ keysA s.stories := (mem_keysA_iff _ _).mpr (by simp [he])
  refine ⟨⟨hwe, nodup_keysA_insA _ _ _ hws⟩, ⟨?_, ?_⟩, ?_, ?_, ?_⟩
  · intro k hk
    exact hle k hk
  · intro k hk
    rw [keysA_insA_of_mem _ _ _ hmem] at hk
    exact hls k hk
  · intro k e2 hk sid hsid
    rw [getA_insA]
    by_cases h2 : story_id = sid
    · rw [if_pos h2]; rfl
    · rw [if_neg h2]
      exact hc k e2 hk sid hsid
  · exact hu
  · exact hn

theorem applyOp_createEpic (s : DbState) (e : Epic) :
    applyOp s (Op.createEpic e) =
      ({ last_item_id := s.last_item_id + 1,
         epics := insA s.epics (s.last_item_id + 1) e,
         stories := s.stories }, some (s.last_item_id + 1)) := rfl

theorem applyOp_createStory_none (s : DbState) (st : Story) (epic_id : Nat)
    (h : getA s.epics epic_id = none) :
    applyOp s (Op.createStory st epic_id) = (s, none) := by
  simp [applyOp, opResult, runOp, create_story, h]

theorem applyOp_createStory_some (s : DbState) (st : Story) (epic_id : Nat) (e : Epic)
    (h : getA s.epics epic_id = some e) :
    applyOp s (Op.createStory st epic_id) =
      ({ last_item_id := s.last_item_id + 1,
         epics := insA s.epics epic_id
           { e with stories := e.stories ++ [s.last_item_id + 1] },
         stories := insA s.stories (s.last_item_id + 1) st },
       some (s.last_item_id + 1)) := by
  simp [applyOp, opResult, runOp, create_story, h]

theorem applyOp_deleteEpic_none (s : DbState) (epic_id : Nat)
    (h : getA s.epics epic_id = none) :
    applyOp s (Op.deleteEpic epic_id) = (s, none) := by
  simp [applyOp, opResult, runOp, delete_epic, h]

theorem applyOp_deleteEpic_some (s : DbState) (epic_id : Nat) (e : Epic)
    (h : getA s.epics epic_id = some e) :
    applyOp s (Op.deleteEpic epic_id) =
      ({ last_item_id := s.last_item_id,
         epics := remA s.epics epic_id,
         stories := remAll s.stories e.stories }, none) := by
  simp [applyOp, opResult, runOp, delete_epic, h]

theorem applyOp_deleteStory_none (s : DbState) (epic_id story_id : Nat)
    (h : getA s.epics epic_id = none) :
    applyOp s (Op.deleteStory epic_id story_id) = (s, none) := by
  simp [applyOp, opResult, runOp, delete_story, h]

theorem applyOp_deleteStory_notMem (s : DbState) (epic_id story_id : Nat) (e : Epic)
    (h : getA s.epics epic_id = some e) (hm : story_id ∉ e.stories) :
    applyOp s (Op.deleteStory epic_id story_id) = (s, none) := by
  simp [applyOp, opResult, runOp, delete_story, h, hm]

theorem applyOp_deleteStory_mem (s : DbState) (epic_id story_id : Nat) (e : Epic)
    (h : getA s.epics epic_id = some e) (hm : story_id ∈ e.stories) :
    applyOp s (Op.deleteStory epic_id story_id) =
      ({ last_item_id := s.last_item_id,
         epics := insA s.epics epic_id { e with stories := e.stories.erase story_id },
         stories := remA s.stories story_id }, none) := by
  simp [applyOp, opResult, runOp, delete_story, h, hm]

theorem applyOp_updateEpic_none (s : DbState) (epic_id : Nat) (status : Status)
    (h : getA s.epics epic_id = none) :
    applyOp s (Op.updateEpicStatus epic_id status) = (s, none) := by
  simp [applyOp, opResult, runOp, update_epic_status, h]

theorem applyOp_updateEpic_some (s : DbState) (epic_id : Nat) (status : Status) (e : Epic)
    (h : getA s.epics epic_id = some e) :
    applyOp s (Op.updateEpicStatus epic_id status) =
      ({ s with epics := insA s.epics epic_id { e with status := status } }, none) := by
  simp [applyOp, opResult, runOp, update_epic_status, h]

theorem applyOp_updateStory_none (s : DbState) (story_id : Nat) (status : Status)
    (h : getA s.stories story_id = none) :
    applyOp s (Op.updateStoryStatus story_id status) = (s, none) := by
  simp [applyOp, opResult, runOp, update_story_status, h]

theorem applyOp_updateStory_some (s : DbState) (story_id : Nat) (status : Status) (st : Story)
    (h : getA s.stories story_id = some st) :
    applyOp s (Op.updateStoryStatus story_id status) =
      ({ s with stories := insA s.stories story_id { st with status := status } }, none) := by
  simp [applyOp, opResult, runOp, update_story_status, h]

/-- One step preserves the invariant; an operation that allocates no id
leaves last_item_id unchanged, and an allocating one returns
last_item_id + 1 and stores it as the new counter. -/
theorem applyOp_preserves (s : DbState) (op : Op) (hg : goodOp op = true)
    (hi : InvDb s) :
    InvDb (applyOp s op).1
    ∧ ((applyOp s op).2 = none → (applyOp s op).1.last_item_id = s.last_item_id)
    ∧ (∀ i, (applyOp s op).2 = some i →
        i = s.last_item_id + 1 ∧ (applyOp s op).1.last_item_id = i) := by
  cases op with
  | createEpic e =>
      have he : e.stories = [] := by
        simpa [goodOp, List.isEmpty_iff] using hg
      rw [applyOp_createEpic]
      refine ⟨inv_step_createEpic s e he hi, ?_, ?_⟩
      · intro h
        simp at h
      · intro i hii
        simp only [Option.some.injEq] at hii
        subst hii
        exact ⟨rfl, rfl⟩
  | createStory st epic_id =>
      cases h : getA s.epics epic_id with
      | none =>
          rw [applyOp_createStory_none s st epic_id h]
          refine ⟨hi, fun _ => rfl, ?_⟩
          intro i hii
          simp at hii
      | some e =>
          rw [applyOp_createStory_some s st epic_id e h]
          refine ⟨inv_step_createStory s st epic_id e h hi, ?_, ?_⟩
          · intro h2
            simp at h2
          · intro i hii
            simp only [Option.some.injEq] at hii
            subst hii
            exact ⟨rfl, rfl⟩
  | deleteEpic epic_id =>
      cases h : getA s.epics epic_id with
      | none =>
          rw [applyOp_deleteEpic_none s epic_id h]
          refine ⟨hi, fun _ => rfl, ?_⟩
          intro i hii
          simp at hii
      | some e =>
          rw [applyOp_deleteEpic_some s epic_id e h]
          refine ⟨inv_step_deleteEpic s epic_id e h hi, fun _ => rfl, ?_⟩
          intro i hii
          simp at hii
  | deleteStory epic_id story_id =>
      cases h : getA s.epics epic_id with
      | none =>
          rw [applyOp_deleteStory_none s epic_id story_id h]
          refine ⟨hi, fun _ => rfl, ?_⟩
          intro i hii
          simp at hii
      | some e =>
          by_cases hm : story_id ∈ e.stories
          · rw [applyOp_deleteStory_mem s epic_id story_id e h hm]
            refine ⟨inv_step_deleteStory s epic_id story_id e h hm hi, fun _ => rfl, ?_⟩
            intro i hii
            simp at hii
          · rw [applyOp_deleteStory_notMem s epic_id story_id e h hm]
            refine ⟨hi, fun _ => rfl, ?_⟩
            intro i hii
            simp at hii
  | updateEpicStatus epic_id status =>
      cases h : getA s.epics epic_id with
      | none =>
          rw [applyOp_updateEpic_none s epic_id status h]
          refine ⟨hi, fun _ => rfl, ?_⟩
          intro i hii
          simp at hii
      | some e =>
          rw [applyOp_updateEpic_some s epic_id status e h]
          refine ⟨inv_step_updateEpic s epic_id status e h hi, fun _ => rfl, ?_⟩
          intro i hii
          simp at hii
  | updateStoryStatus story_id status =>
      cases h : getA s.stories story_id with
      | none =>
          rw [applyOp_updateStory_none s story_id status h]
          refine ⟨hi, fun _ => rfl, ?_⟩
          intro i hii
          simp at hii
      | some st =>
          rw [applyOp_updateStory_some s story_id status st h]
          refine ⟨inv_step_updateStory s story_id status st h hi, fun _ => rfl, ?_⟩
          intro i hii
          simp at hii

theorem execFrom_cons (s : DbState) (op : Op) (rest : List Op) :
    execFrom s (op :: rest) =
      ((execFrom (applyOp s op).1 rest).1,
       (applyOp s op).2.toList ++ (execFrom (applyOp s op).1 rest).2) := rfl

/-- Trace lemma: from any invariant state, a sequence of good operations
keeps the invariant, allocates ids strictly above the starting counter in
strictly increasing order, and ends with the counter equal to the running
maximum of the starting counter and all allocated ids. -/
theorem execFrom_spec (ops : List Op) : ∀ s : DbState, goodOps ops = true → InvDb s →
    InvDb (execFrom s ops).1
    ∧ (∀ i ∈ (execFrom s ops).2, s.last_item_id < i)
    ∧ List.Chain' (fun a b => a < b) (execFrom s ops).2
    ∧ (execFrom s ops).1.last_item_id = (execFrom s ops).2.foldl max s.last_item_id := by
  induction ops with
  | nil =>
      intro s _ hi
      exact ⟨hi, by simp [execFrom], by simp [execFrom], by simp [execFrom]⟩
  | cons op rest ih =>
      intro s hg hi
      have hgp : goodOp op = true ∧ goodOps rest = true := by
        simpa [goodOps, List.all_cons, Bool.and_eq_true] using hg
      have hp := applyOp_preserves s op hgp.1 hi
      have ihh := ih (applyOp s op).1 hgp.2 hp.1
      rw [execFrom_cons]
      cases halloc : (applyOp s op).2 with
      | none =>
          have hlast : (applyOp s op).1.last_item_id = s.last_item_id := hp.2.1 halloc
          simp only [Option.toList_none, List.nil_append]
          refine ⟨ihh.1, ?_, ihh.2.2.1, ?_⟩
          · intro j hj
            have := ihh.2.1 j hj
            omega
          · rw [ihh.2.2.2, hlast]
      | some i =>
          obtain ⟨hi1, hi2⟩ := hp.2.2 i halloc
          simp only [Option.toList_some, List.singleton_append]
          refine ⟨ihh.1, ?_, ?_, ?_⟩
          · intro j hj
            rcases List.mem_cons.mp hj with h | h
            · omega
            · have := ihh.2.1 j h
              omega
          · rw [List.chain'_cons']
            refine ⟨?_, ihh.2.2.1⟩
            intro b hb
            have hbm : b ∈ (execFrom (applyOp s op).1 rest).2 :=
              List.mem_of_mem_head? hb
            have := ihh.2.1 b hbm
            omega
          · rw [List.foldl_cons]
            have hmax : max s.last_item_id i = i := by omega
            rw [hmax, ihh.2.2.2, hi2]

/-- C3 counterexample: the claim quantifies over every sequence of repository
operations, but create_epic inserts its argument unchanged, so the single
operation createEpic(epicPreloaded) starting from the empty state yields a
state in which epic 1 references story 7 while the stories map has no key 7:
the referenced-ids-exist invariant does not survive arbitrary sequences. -/
theorem repository_invariant_cx :
    getA (execFrom emptyDb [Op.createEpic epicPreloaded]).1.epics 1 = some epicPreloaded
    ∧ 7 ∈ epicPreloaded.stories
    ∧ getA (execFrom emptyDb [Op.createEpic epicPreloaded]).1.stories 7 = none
    ∧ ¬ refsClosed (execFrom emptyDb [Op.createEpic epicPreloaded]).1 := by
  refine ⟨rfl, by decide, rfl, ?_⟩
  intro h
  have := h 1 epicPreloaded rfl 7 (by decide)
  simp [execFrom, applyOp, opResult, runOp, create_epic, emptyDb, insA, getA, epicPreloaded] at this

/-- C3 amended: starting from the empty DbState, every sequence of repository
operations in which each created epic carries an empty stories sequence (as
every epic built by Epic::new does) preserves the invariant: allocated ids
are strictly increasing and never repeat (hence never reused after any
deletion), last_item_id always equals the maximum id allocated so far (0 when
none), every id in any epic's stories sequence is a key of the stories map,
and no delete ever changes last_item_id.  Without the empty-stories proviso
the referenced-ids invariant fails, because create_epic stores its argument
verbatim. -/
theorem repository_trace_invariants (ops : List Op) (hg : goodOps ops = true) :
    List.Chain' (fun a b => a < b) (execFrom emptyDb ops).2
    ∧ (execFrom emptyDb ops).1.last_item_id = (execFrom emptyDb ops).2.foldl max 0
    ∧ refsClosed (execFrom emptyDb ops).1
    ∧ (∀ s eid, (applyOp s (Op.deleteEpic eid)).1.last_item_id = s.last_item_id)
    ∧ (∀ s eid sid, (applyOp s (Op.deleteStory eid sid)).1.last_item_id = s.last_item_id) := by
  have h := execFrom_spec ops emptyDb hg inv_emptyDb
  refine ⟨h.2.2.1, h.2.2.2, h.1.2.2.1, ?_, ?_⟩
  · intro s eid
    cases hc : getA s.epics eid with
    | none => rw [applyOp_deleteEpic_none s eid hc]
    | some e => rw [applyOp_deleteEpic_some s eid e hc]
  · intro s eid sid
    cases hc : getA s.epics eid with
    | none => rw [applyOp_deleteStory_none s eid sid hc]
    | some e =>
        by_cases hm : sid ∈ e.stories
        · rw [applyOp_deleteStory_mem s eid sid e hc hm]
        · rw [applyOp_deleteStory_notMem s eid sid e hc hm]

/-- A concrete operation sequence: create an epic, create a story under it,
then delete the epic. -/
def opsW : List Op :=
  [Op.createEpic (Epic.new "e" "d"),
   Op.createStory (Story.new "s" "d") 1,
   Op.deleteEpic 1]

/-- C3 witness: the trace theorem applied to opsW, whose allocations evaluate
to the list [1, 2]. -/
theorem repository_trace_invariants_witness :
    (execFrom emptyDb opsW).2 = [1, 2]
    ∧ (List.Chain' (fun a b => a < b) (execFrom emptyDb opsW).2
      ∧ (execFrom emptyDb opsW).1.last_item_id = (execFrom emptyDb opsW).2.foldl max 0
      ∧ refsClosed (execFrom emptyDb opsW).1
      ∧ (∀ s eid, (applyOp s (Op.deleteEpic eid)).1.last_item_id = s.last_item_id)
      ∧ (∀ s eid sid, (applyOp s (Op.deleteStory eid sid)).1.last_item_id = s.last_item_id)) :=
  ⟨rfl, repository_trace_invariants opsW rfl⟩

theorem runOp_error_eq {α : Type} (f : DbState → Except String (α × DbState))
    (s : DbState) (m : String) (s2 : DbState)
    (h : runOp f s = (Except.error m, s2)) : s2 = s := by
  unfold runOp at h
  cases hf : f s with
  | error e =>
      rw [hf] at h
      cases h
      rfl
  | ok p =>
      obtain ⟨a, s3⟩ := p
      rw [hf] at h
      simp at h

theorem opResult_error_state (op : Op) (s : DbState) (m : String)
    (h : (opResult op s).1 = Except.error m) : (opResult op s).2 = s := by
  cases op with
  | createEpic e =>
      simp only [opResult] at h ⊢
      rcases hr : runOp (create_epic e) s with ⟨r1, s2⟩
      rw [hr] at h
      cases r1 with
      | ok a => exact Except.noConfusion h
      | error m2 => exact runOp_error_eq (create_epic e) s m2 s2 hr
  | createStory st eid =>
      simp only [opResult] at h ⊢
      rcases hr : runOp (create_story st eid) s with ⟨r1, s2⟩
      rw [hr] at h
      cases r1 with
      | ok a => exact Except.noConfusion h
      | error m2 => exact runOp_error_eq (create_story st eid) s m2 s2 hr
  | deleteEpic eid =>
      simp only [opResult] at h ⊢
      rcases hr : runOp (delete_epic eid) s with ⟨r1, s2⟩
      rw [hr] at h
      cases r1 with
      | ok a => exact Except.noConfusion h
      | error m2 => exact runOp_error_eq (delete_epic eid) s m2 s2 hr
  | deleteStory eid sid =>
      simp only [opResult] at h ⊢
      rcases hr : runOp (delete_story eid sid) s with ⟨r1, s2⟩
      rw [hr] at h
      cases r1 with
      | ok a => exact Except.noConfusion h
      | error m2 => exact runOp_error_eq (delete_story eid sid) s m2 s2 hr
  | updateEpicStatus eid st =>
      simp only [opResult] at h ⊢
      rcases hr : runOp (update_epic_status eid st) s with ⟨r1, s2⟩
      rw [hr] at h
      cases r1 with
      | ok a => exact Except.noConfusion h
      | error m2 => exact runOp_error_eq (update_epic_status eid st) s m2 s2 hr
  | updateStoryStatus sid st =>
      simp only [opResult] at h ⊢
      rcases hr : runOp (update_story_status sid st) s with ⟨r1, s2⟩
      rw [hr] at h
      cases r1 with
      | ok a => exact Except.noConfusion h
      | error m2 => exact runOp_error_eq (update_story_status sid st) s m2 s2 hr

/-- C7 counterexample: JiraDatabase::read applies .expect("Read JIRA error")
to the backend read result, so a backend failure (here a missing file)
aborts the process instead of being returned to the caller as an error. -/
theorem jira_read_panics_cx :
    JiraDatabase.read (Except.error "No such file or directory") = ReadOutcome.panics := rfl

/-- C7 amended: every mutating repository operation hands each internally
generated error back to the caller with the persisted state exactly as it
was (the backend write is only reached after all preconditions passed), and
a successful backend read reaches the caller unchanged; JiraDatabase::read,
however, aborts the process on a failed backend read instead of returning
the error. -/
theorem repository_errors_propagate (op : Op) (s : DbState) :
    (∀ m, (opResult op s).1 = Except.error m → (opResult op s).2 = s)
    ∧ JiraDatabase.read (Except.ok s) = ReadOutcome.value s
    ∧ (∀ m, JiraDatabase.read (Except.error m) = ReadOutcome.panics) :=
  ⟨fun m h => opResult_error_state op s m h, rfl, fun _ => rfl⟩

/-- C7 witness: repository_errors_propagate at a concrete failing delete on
the empty state and at both backend read outcomes. -/
theorem repository_errors_propagate_witness :
    (opResult (Op.deleteEpic 5) emptyDb).2 = emptyDb
    ∧ JiraDatabase.read (Except.ok emptyDb) = ReadOutcome.value emptyDb
    ∧ JiraDatabase.read (Except.error "Read JIRA error") = ReadOutcome.panics :=
  ⟨(repository_errors_propagate (Op.deleteEpic 5) emptyDb).1
      "could not find epic in database!" rfl,
   (repository_errors_propagate (Op.deleteEpic 5) emptyDb).2.1,
   (repository_errors_propagate (Op.deleteEpic 5) emptyDb).2.2 "Read JIRA error"⟩

/-- The byte length computed by Rust str::len: the total UTF-8 size of the
characters of the string. -/
def utf8Len (text : String) : Nat := (text.toList.map Char.utf8Size).sum

/-- Modelled from the ellipse crate (the external dependency used by
pages_helpers.rs): truncate_ellipse returns the string unchanged when it has
at most n characters, otherwise its first n characters followed by the
default ellipsis "...". -/
def truncate_ellipse (text : String) (n : Nat) : String :=
  if text.toList.length ≤ n then text
  else String.mk (text.toList.take n) ++ "..."

/-- pages_helpers.rs get_column_string: compare the byte length of the text
against the width (Ordering::Equal, Less, Greater in the source); equal
returns the text, shorter pads with trailing spaces up to the width, longer
special-cases widths 0 to 3 and otherwise truncates to width - 3 characters
with a trailing "...". -/
def get_column_string (text : String) (width : Nat) : String :=
  if utf8Len text = width then text
  else if utf8Len text < width then
    text ++ String.mk (List.replicate (width - utf8Len text) ' ')
  else if width = 0 then ""
  else if width = 1 then "."
  else if width = 2 then ".."
  else if width = 3 then "..."
  else truncate_ellipse text (width - 3)

theorem utf8Len_of_ascii (l : List Char) (h : ∀ c ∈ l, c.utf8Size = 1) :
    (l.map Char.utf8Size).sum = l.length := by
  induction l with
  | nil => rfl
  | cons c t ih =>
      have hc : c.utf8Size = 1 := h c (List.mem_cons_self c t)
      have ht : ∀ c2 ∈ t, c2.utf8Size = 1 := fun c2 hm => h c2 (List.mem_cons_of_mem c hm)
      simp [hc, ih ht, Nat.add_comm]

theorem strLen_append (a b : String) : (a ++ b).length = a.length + b.length :=
  String.length_append a b

theorem strLen_mk (l : List Char) : (String.mk l).length = l.length := rfl

theorem toList_length (s : String) : s.toList.length = s.length := rfl

/-- C8 counterexample: the source compares the UTF-8 byte length of the text
with the width but pads and truncates by characters, so for multibyte text
the result does not have exactly `width` characters and the truncation rule
differs from "first width - 3 characters plus dots".  With a two-byte
character: width 3 padding yields a 2-character string; a 6-byte 2-character
text at width 5 is returned whole rather than as its first 2 characters
followed by "...". -/
theorem get_column_string_cx :
    get_column_string "é" 3 = "é "
    ∧ ("é " : String).length = 2
    ∧ get_column_string "日本" 5 = "日本"
    ∧ ("日本" : String).length = 2
    ∧ ("日本" : String) ≠ "日本..." := by
  exact ⟨by decide, by decide, by decide, by decide, by decide⟩

/-- C8 amended: for text whose characters are all single UTF-8 bytes (in
particular all ASCII text, covering every example in the claim), the result
has exactly `width` characters: the text padded with trailing spaces when
shorter, the text unchanged when equal, and when the text is longer the
empty string for width 0, "." for width 1, ".." for width 2, "..." for
width 3, and the first width - 3 characters followed by "..." for
width >= 4.  For multibyte text the byte/character mismatch of the source
makes the exact-width guarantee fail. -/
theorem get_column_string_spec (text : String) (width : Nat)
    (hA : ∀ c ∈ text.toList, c.utf8Size = 1) :
    (get_column_string text width).length = width
    ∧ (text.length = width → get_column_string text width = text)
    ∧ (text.length < width →
        get_column_string text width =
          text ++ String.mk (List.replicate (width - text.length) ' '))
    ∧ (width < text.length →
        (width = 0 → get_column_string text width = "")
        ∧ (width = 1 → get_column_string text width = ".")
        ∧ (width = 2 → get_column_string text width = "..")
        ∧ (width = 3 → get_column_string text width = "...")
        ∧ (4 ≤ width →
            get_column_string text width =
              String.mk (text.toList.take (width - 3)) ++ "...")) := by
  have hlen : utf8Len text = text.length := by
    rw [utf8Len, utf8Len_of_ascii _ hA, toList_length]
  rcases Nat.lt_trichotomy text.length width with hlt | heq | hgt
  · have hg : get_column_string text width =
        text ++ String.mk (List.replicate (width - text.length) ' ') := by
      rw [get_column_string, if_neg (by omega), if_pos (by omega), hlen]
    refine ⟨?_, ?_, fun _ => hg, ?_⟩
    · rw [hg, strLen_append]
      simp only [strLen_mk, List.length_replicate]
      omega
    · intro h
      exact absurd h (by omega)
    · intro h
      exact absurd h (by omega)
  · have hg : get_column_string text width = text := by
      rw [get_column_string, if_pos (by omega)]
    refine ⟨?_, fun _ => hg, ?_, ?_⟩
    · rw [hg]
      omega
    · intro h
      exact absurd h (by omega)
    · intro h
      exact absurd h (by omega)
  · have hG0 : width = 0 → get_column_string text width = "" := fun h0 => by
      rw [get_column_string, if_neg (by omega), if_neg (by omega), if_pos h0]
    have hG1 : width = 1 → get_column_string text width = "." := fun h1 => by
      rw [get_column_string, if_neg (by omega), if_neg (by omega), if_neg (by omega),
        if_pos h1]
    have hG2 : width = 2 → get_column_string text width = ".." := fun h2 => by
      rw [get_column_string, if_neg (by omega), if_neg (by omega), if_neg (by omega),
        if_neg (by omega), if_pos h2]
    have hG3 : width = 3 → get_column_string text width = "..." := fun h3 => by
      rw [get_column_string, if_neg (by omega), if_neg (by omega), if_neg (by omega),
        if_neg (by omega), if_neg (by omega), if_pos h3]
    have hG4 : 4 ≤ width → get_column_string text width =
        String.mk (text.toList.take (width - 3)) ++ "..." := fun h4 => by
      rw [get_column_string, if_neg (by omega), if_neg (by omega), if_neg (by omega),
        if_neg (by omega), if_neg (by omega), if_neg (by omega), truncate_ellipse,
        if_neg (by rw [toList_length]; omega)]
    refine ⟨?_, ?_, ?_, fun _ => ⟨hG0, hG1, hG2, hG3, hG4⟩⟩
    · by_cases h0 : width = 0
      · rw [hG0 h0, h0]
        rfl
      · by_cases h1 : width = 1
        · rw [hG1 h1, h1]
          rfl
        · by_cases h2 : width = 2
          · rw [hG2 h2, h2]
            rfl
          · by_cases h3 : width = 3
            · rw [hG3 h3, h3]
              rfl
            · have h4 : 4 ≤ width := by omega
              rw [hG4 h4, strLen_append, strLen_mk, List.length_take, toList_length,
                Nat.min_eq_left (by omega)]
              have hdots : ("..." : String).length = 3 := rfl
              omega
    · intro h
      exact absurd h (by omega)
    · intro h
      exact absurd h (by omega)

/-- C8 witness: the amended theorem applied at the test vector of the
source: width 6 on the 10-character ASCII text gives a 6-character result,
namely the first 3 characters plus "...". -/
theorem get_column_string_spec_witness :
    (get_column_string "testmetest" 6).length = 6
    ∧ get_column_string "testmetest" 6 =
        String.mk ("testmetest".toList.take 3) ++ "..." :=
  ⟨(get_column_string_spec "testmetest" 6 (by decide)).1,
   ((get_column_string_spec "testmetest" 6 (by decide)).2.2.2 (by decide)).2.2.2.2
     (by decide)⟩

/-- Rust char::is_whitespace: true exactly on the Unicode White_Space
characters, namely U+0009 to U+000D, U+0020, U+0085, U+00A0, U+1680,
U+2000 to U+200A, U+2028, U+2029, U+202F, U+205F and U+3000. -/
def rustIsWhitespace (c : Char) : Bool :=
  decide ((0x09 ≤ c.toNat ∧ c.toNat ≤ 0x0D) ∨ c.toNat = 0x20 ∨ c.toNat = 0x85
    ∨ c.toNat = 0xA0 ∨ c.toNat = 0x1680
    ∨ (0x2000 ≤ c.toNat ∧ c.toNat ≤ 0x200A)
    ∨ c.toNat = 0x2028 ∨ c.toNat = 0x2029 ∨ c.toNat = 0x202F
    ∨ c.toNat = 0x205F ∨ c.toNat = 0x3000)

/-- Rust str::trim as used by the prompts: strip leading and trailing
Unicode White_Space characters. -/
def rust_trim (s : String) : String :=
  String.mk (((s.toList.dropWhile rustIsWhitespace).reverse.dropWhile
    rustIsWhitespace).reverse)

/-- prompts.rs delete_epic_prompt: read a line and answer yes exactly when
the trimmed input equals the single token Y. -/
def delete_epic_prompt (input : String) : Bool := rust_trim input == "Y"

/-- prompts.rs delete_story_prompt: identical confirmation rule. -/
def delete_story_prompt (input : String) : Bool := rust_trim input == "Y"

/-- Rust u32::from_str: an optional leading plus sign followed by one or
more ASCII digits and a value of at most u32::MAX; everything else
(including surrounding whitespace) fails. -/
def parse_u32 (s : String) : Option Nat :=
  let cs := match s.toList with
    | '+' :: rest => rest
    | l => l
  if cs.isEmpty then none
  else if cs.all Char.isDigit then
    let v := cs.foldl (fun a c => a * 10 + (c.toNat - 48)) 0
    if v < 4294967296 then some v else none
  else none

/-- prompts.rs update_status_prompt: parse the input as u32 and match the
numeric arms 1 to 4 to the four statuses, every other outcome giving no
selection. -/
def update_status_prompt (input : String) : Option Status :=
  match parse_u32 input with
  | none => none
  | some status =>
      if status = 1 then some Status.Open
      else if status = 2 then some Status.InProgress
      else if status = 3 then some Status.Resolved
      else if status = 4 then some Status.Closed
      else none

/-- C9 counterexample: the prompts trim before comparing and use full Rust
u32 parsing, so inputs other than the designated tokens are accepted: " Y"
answers yes though it is not exactly "Y", and "01" and "+2" select statuses
though they are not the tokens "1" to "4". -/
theorem prompts_cx :
    delete_epic_prompt " Y" = true
    ∧ " Y" ≠ "Y"
    ∧ update_status_prompt "01" = some Status.Open
    ∧ "01" ≠ "1"
    ∧ update_status_prompt "+2" = some Status.InProgress := by
  exact ⟨by decide, by decide, by decide, by decide, by decide⟩

/-- C9 amended: the confirmation prompts answer yes exactly when the input
trims to the token Y (case-sensitive, so "y" and "Yes" answer no, and so
does the empty input); the status prompt returns Open, InProgress, Resolved
or Closed exactly when the input parses under Rust u32 syntax to 1, 2, 3 or
4 respectively (so "1" to "4" select as stated, but so do forms like "01" or
"+2"), and returns no selection for every other input, including all
non-numeric text. -/
theorem prompts_spec (input : String) :
    (delete_epic_prompt input = true ↔ rust_trim input = "Y")
    ∧ (delete_story_prompt input = true ↔ rust_trim input = "Y")
    ∧ (update_status_prompt input = some Status.Open ↔ parse_u32 input = some 1)
    ∧ (update_status_prompt input = some Status.InProgress ↔ parse_u32 input = some 2)
    ∧ (update_status_prompt input = some Status.Resolved ↔ parse_u32 input = some 3)
    ∧ (update_status_prompt input = some Status.Closed ↔ parse_u32 input = some 4)
    ∧ (update_status_prompt input = none ↔
        ∀ k, parse_u32 input = some k → k ∉ ([1, 2, 3, 4] : List Nat)) := by
  refine ⟨?_, ?_, ?_⟩
  · simp [delete_epic_prompt, beq_iff_eq]
  · simp [delete_story_prompt, beq_iff_eq]
  cases hv : parse_u32 input with
  | none =>
      simp [update_status_prompt, hv]
  | some k =>
      by_cases h1 : k = 1
      · subst h1
        simp [update_status_prompt, hv]
      · by_cases h2 : k = 2
        · subst h2
          simp [update_status_prompt, hv]
        · by_cases h3 : k = 3
          · subst h3
            simp [update_status_prompt, hv]
          · by_cases h4 : k = 4
            · subst h4
              simp [update_status_prompt, hv]
            · simp [update_status_prompt, hv, h1, h2, h3, h4]

/-- C9 witness: the amended theorem applied at the designated tokens, plus
a non-numeric input giving no selection and two inputs wrapped in Unicode
White_Space characters (a vertical tab and a no-break space) that str::trim
strips, so they answer yes. -/
theorem prompts_spec_witness :
    delete_epic_prompt "Y" = true
    ∧ delete_story_prompt "Y" = true
    ∧ update_status_prompt "1" = some Status.Open
    ∧ update_status_prompt "2" = some Status.InProgress
    ∧ update_status_prompt "3" = some Status.Resolved
    ∧ update_status_prompt "4" = some Status.Closed
    ∧ update_status_prompt "q" = none
    ∧ delete_epic_prompt "\x0BY" = true
    ∧ delete_story_prompt "\u00A0Y\u00A0" = true :=
  ⟨(prompts_spec "Y").1.mpr rfl,
   (prompts_spec "Y").2.1.mpr rfl,
   (prompts_spec "1").2.2.1.mpr rfl,
   (prompts_spec "2").2.2.2.1.mpr rfl,
   (prompts_spec "3").2.2.2.2.1.mpr rfl,
   (prompts_spec "4").2.2.2.2.2.1.mpr rfl,
   (prompts_spec "q").2.2.2.2.2.2.mpr (fun _ h => Option.noConfusion h),
   (prompts_spec "\x0BY").1.mpr (by decide),
   (prompts_spec "\u00A0Y\u00A0").2.1.mpr (by decide)⟩

/-- Modelled from the spec: the persisted file format of section 6 is a
single JSON document; this tree is the value serde_json writes and parses
(numbers restricted to the unsigned integers the data model uses). -/
inductive Json where
  | num (n : Nat)
  | str (s : String)
  | arr (elems : List Json)
  | obj (fields : List (String × Json))

/-- The stringified integer map keys of the persisted format: decimal
digits, most significant first. -/
def natToStr (n : Nat) : String :=
  match n with
  | 0 => "0"
  | _ => String.mk ((Nat.digits 10 n).reverse.map Nat.digitChar)

def digitVal (c : Char) : Nat := c.toNat - 48

/-- Parsing a stringified integer key back: one or more ASCII digits. -/
def strToNat (s : String) : Option Nat :=
  if s.toList ≠ [] ∧ s.toList.all Char.isDigit then
    some (s.toList.foldl (fun a c => a * 10 + digitVal c) 0)
  else none

theorem digitChar_isDigit (d : Nat) (h : d < 10) : (Nat.digitChar d).isDigit = true := by
  interval_cases d <;> decide

theorem digitVal_digitChar (d : Nat) (h : d < 10) : digitVal (Nat.digitChar d) = d := by
  interval_cases d <;> decide

theorem foldr_digits (ds : List Nat) (h : ∀ d ∈ ds, d < 10) :
    (ds.map Nat.digitChar).foldr (fun c a => a * 10 + digitVal c) 0 =
      Nat.ofDigits 10 ds := by
  induction ds with
  | nil => simp [Nat.ofDigits_nil]
  | cons d t ih =>
      have hd : d < 10 := h d (List.mem_cons_self d t)
      have ht : ∀ x ∈ t, x < 10 := fun x hx => h x (List.mem_cons_of_mem d hx)
      simp only [List.map_cons, List.foldr_cons, Nat.ofDigits_cons, ih ht,
        digitVal_digitChar d hd]
      ring

theorem strToNat_natToStr (n : Nat) : strToNat (natToStr n) = some n := by
  cases n with
  | zero => decide
  | succ m =>
      have hne : Nat.digits 10 (m + 1) ≠ [] :=
        Nat.digits_ne_nil_iff_ne_zero.mpr (Nat.succ_ne_zero m)
      have hlt : ∀ d ∈ Nat.digits 10 (m + 1), d < 10 :=
        fun d hd => Nat.digits_lt_base (by norm_num) hd
      have hmk : natToStr (m + 1) =
          String.mk ((Nat.digits 10 (m + 1)).reverse.map Nat.digitChar) := rfl
      rw [hmk, strToNat]
      have htl : (String.mk ((Nat.digits 10 (m + 1)).reverse.map Nat.digitChar)).toList =
          (Nat.digits 10 (m + 1)).reverse.map Nat.digitChar := rfl
      rw [htl]
      have hcond : (Nat.digits 10 (m + 1)).reverse.map Nat.digitChar ≠ []
          ∧ ((Nat.digits 10 (m + 1)).reverse.map Nat.digitChar).all Char.isDigit := by
        constructor
        · simp [hne]
        · rw [List.all_eq_true]
          intro c hc
          rcases List.mem_map.mp hc with ⟨d, hd, hcd⟩
          subst hcd
          exact digitChar_isDigit d (hlt d (List.mem_reverse.mp hd))
      rw [if_pos hcond]
      rw [List.map_reverse, List.foldl_reverse, foldr_digits _ hlt,
        Nat.ofDigits_digits]

/-- The four status discriminators of the persisted format (spec section
6). -/
def statusToJson : Status → Json
  | Status.Open => Json.str "OPEN"
  | Status.InProgress => Json.str "IN_PROGRESS"
  | Status.Resolved => Json.str "RESOLVED"
  | Status.Closed => Json.str "CLOSED"

/-- Deserialization rejects any status outside the four-member
enumeration. -/
def statusFromJson : Json → Option Status
  | Json.str "OPEN" => some Status.Open
  | Json.str "IN_PROGRESS" => some Status.InProgress
  | Json.str "RESOLVED" => some Status.Resolved
  | Json.str "CLOSED" => some Status.Closed
  | _ => none

theorem statusFromJson_statusToJson (st : Status) :
    statusFromJson (statusToJson st) = some st := by
  cases st <;> rfl

def asStr : Json → Option String
  | Json.str s => some s
  | _ => none

def asNat : Json → Option Nat
  | Json.num n => some n
  | _ => none

def storyIdsToJson (ids : List Nat) : Json := Json.arr (ids.map Json.num)

/-- Elementwise decoding of a JSON sequence, failing on the first bad
element (the serde sequence rule). -/
def mapO {α β : Type} (f : α → Option β) : List α → Option (List β)
  | [] => some []
  | a :: t => do
      let b ← f a
      let r ← mapO f t
      some (b :: r)

def storyIdsFromJson : Json → Option (List Nat)
  | Json.arr xs => mapO asNat xs
  | _ => none

theorem mapO_asNat (ids : List Nat) : mapO asNat (ids.map Json.num) = some ids := by
  induction ids with
  | nil => rfl
  | cons i t ih => simp [mapO, asNat, ih]

/-- Modelled from the spec: the serde field layout of an Epic in the
persisted format (name, description, status, stories). -/
def epicToJson (e : Epic) : Json :=
  Json.obj [("name", Json.str e.name), ("description", Json.str e.description),
    ("status", statusToJson e.status), ("stories", storyIdsToJson e.stories)]

def epicFromJson : Json → Option Epic
  | Json.obj fields => do
      let nj ← fields.lookup "name"
      let name ← asStr nj
      let dj ← fields.lookup "description"
      let description ← asStr dj
      let sj ← fields.lookup "status"
      let status ← statusFromJson sj
      let stj ← fields.lookup "stories"
      let stories ← storyIdsFromJson stj
      some { name := name, description := description, status := status, stories := stories }
  | _ => none

theorem epicFromJson_epicToJson (e : Epic) : epicFromJson (epicToJson e) = some e := by
  simp [epicFromJson, epicToJson, List.lookup, asStr, storyIdsFromJson, storyIdsToJson,
    mapO_asNat, statusFromJson_statusToJson]

/-- Modelled from the spec: the serde field layout of a Story in the
persisted format. -/
def storyToJson (st : Story) : Json :=
  Json.obj [("name", Json.str st.name), ("description", Json.str st.description),
    ("status", statusToJson st.status)]

def storyFromJson : Json → Option Story
  | Json.obj fields => do
      let nj ← fields.lookup "name"
      let name ← asStr nj
      let dj ← fields.lookup "description"
      let description ← asStr dj
      let sj ← fields.lookup "status"
      let status ← statusFromJson sj
      some { name := name, description := description, status := status }
  | _ => none

theorem storyFromJson_storyToJson (st : Story) : storyFromJson (storyToJson st) = some st := by
  simp [storyFromJson, storyToJson, List.lookup, asStr, statusFromJson_statusToJson]

/-- One map entry of the persisted format: a stringified id key and an
encoded value. -/
def entryFromJson {β : Type} (valFrom : Json → Option β) (p : String × Json) :
    Option (Nat × β) := do
  let k ← strToNat p.1
  let v ← valFrom p.2
  some (k, v)

theorem mapO_entry {β : Type} (enc : β → Json) (dec : Json → Option β)
    (hdec : ∀ b, dec (enc b) = some b) (l : List (Nat × β)) :
    mapO (entryFromJson dec) (l.map (fun p => (natToStr p.1, enc p.2))) = some l := by
  induction l with
  | nil => rfl
  | cons p t ih =>
      obtain ⟨k, v⟩ := p
      simp [mapO, entryFromJson, strToNat_natToStr, hdec, ih]

def epicsToJson (l : List (Nat × Epic)) : Json :=
  Json.obj (l.map (fun p => (natToStr p.1, epicToJson p.2)))

def epicsFromJson : Json → Option (List (Nat × Epic))
  | Json.obj fields => mapO (entryFromJson epicFromJson) fields
  | _ => none

def storiesToJson (l : List (Nat × Story)) : Json :=
  Json.obj (l.map (fun p => (natToStr p.1, storyToJson p.2)))

def storiesFromJson : Json → Option (List (Nat × Story))
  | Json.obj fields => mapO (entryFromJson storyFromJson) fields
  | _ => none

/-- Modelled from the spec: the persisted document of section 6,
last_item_id plus the two maps keyed by stringified ids. -/
def dbStateToJson (s : DbState) : Json :=
  Json.obj [("last_item_id", Json.num s.last_item_id),
    ("epics", epicsToJson s.epics),
    ("stories", storiesToJson s.stories)]

def dbStateFromJson : Json → Option DbState
  | Json.obj fields => do
      let lj ← fields.lookup "last_item_id"
      let last ← asNat lj
      let ej ← fields.lookup "epics"
      let epics ← epicsFromJson ej
      let sj ← fields.lookup "stories"
      let stories ← storiesFromJson sj
      some { last_item_id := last, epics := epics, stories := stories }
  | _ => none

theorem dbStateFromJson_dbStateToJson (s : DbState) :
    dbStateFromJson (dbStateToJson s) = some s := by
  simp [dbStateFromJson, dbStateToJson, List.lookup, asNat, epicsToJson, epicsFromJson,
    storiesToJson, storiesFromJson,
    mapO_entry epicToJson epicFromJson epicFromJson_epicToJson,
    mapO_entry storyToJson storyFromJson storyFromJson_storyToJson]

/-- db.rs JsonFileDb::write serializes the full state: the file holds the
serialized document after a successful write. -/
def JsonFileDb.write (state : DbState) : Json := dbStateToJson state

/-- db.rs JsonFileDb::read parses the file contents back into a DbState,
failing when the document does not deserialize. -/
def JsonFileDb.read (file : Json) : Except String DbState :=
  match dbStateFromJson file with
  | some s => Except.ok s
  | none => Except.error "invalid database file"

/-- db.rs MockDB::write stores a deep copy of the given state (clone). -/
def MockDB.write (state : DbState) (_stored : DbState) : DbState := state

/-- db.rs MockDB::read returns a deep copy of the last written state. -/
def MockDB.read (stored : DbState) : Except String DbState := Except.ok stored

/-- C6: for every DbState (empty maps and empty stories sequences included),
writing through a backend and reading back returns the original value, for
the JSON file backend and for the in-memory mock backend. -/
theorem backend_roundtrip (s : DbState) (stored : DbState) :
    JsonFileDb.read (JsonFileDb.write s) = Except.ok s
    ∧ MockDB.read (MockDB.write s stored) = Except.ok s := by
  constructor
  · simp [JsonFileDb.read, JsonFileDb.write, dbStateFromJson_dbStateToJson]
  · rfl
